import Mathlib

/-!
Shallow embedding of the parallel block executor driver
(`aptos-move/aptos-vm/src/block_executor/mod.rs`), the deferred delta
resolver (`aptos-move/block-executor/src/output_delta_resolver.rs`) and the
indexer token-resource decoder
(`crates/indexer/src/models/token_models/v2_token_utils.rs`), together with
theorems checking the natural-language specification against the code.

Machine integers (u64 gas, u128 aggregator values) are modelled as `Nat`;
none of the verified claims involves overflow of those counters.  External
collaborators that the code is generic over (the inner `BlockExecutor`, the
signature-verification map `preprocess_transaction`, `serde_json` decoding,
the multi-version map accessors `take_aggregator_keys` and
`take_materialized_deltas`) are taken as parameters, so every theorem holds
for all of their behaviours.  A Rust `panic!` / `assert!` / `unreachable!`
is modelled by a distinguished outcome (`Option.none` or
`BlockOutcome.panicked`), never conflated with a returned error.
-/

namespace Spec2Proof

/-- State keys are opaque, hashable, totally ordered identifiers; modelled
as `Nat`. -/
abbrev StateKey := Nat

/-- Raw transactions are opaque to the driver; modelled as `Nat`. -/
abbrev Transaction := Nat

/-- Preprocessed (signature verified) transactions, also opaque. -/
abbrev PreprocessedTransaction := Nat

/-- VM status codes are opaque to the driver; modelled as `Nat`. -/
abbrev VMStatus := Nat

/-- `AptosWrite` values: the delta resolver materializes aggregator values,
everything else is an opaque blob. -/
inductive AptosWrite where
  | AggregatorValue (v : Nat)
  | Blob (bytes : List Nat)
deriving DecidableEq, Repr

/-- `Op` write operations: create, modify or delete a storage cell. -/
inductive Op (α : Type) where
  | Creation (v : α)
  | Modification (v : α)
  | Deletion
deriving DecidableEq, Repr

/-- A delta operation: a signed bounded update with a saturation bound.
Only its identity (and count) matters to the verified claims. -/
structure DeltaOp where
  update : Int
  limit : Nat
deriving DecidableEq, Repr

/-- A change set is an ordered list of per-key entries. -/
abbrev ChangeSet (α : Type) := List (StateKey × α)

/-- `ChangeSet::empty()`. -/
def ChangeSet.empty {α : Type} : ChangeSet α := []

/-- Transaction status as carried by a `TransactionOutput`. -/
inductive TransactionStatus where
  | Keep (s : VMStatus)
  | Discard (s : VMStatus)
  | Retry
deriving DecidableEq, Repr

/-- `VMTransactionOutput`: writes, deltas, events, gas used and status, as
produced by the VM for one transaction. -/
structure VMTransactionOutput where
  writes : ChangeSet (Op AptosWrite)
  deltas : ChangeSet DeltaOp
  events : List Nat
  gas_used : Nat
  status : TransactionStatus
deriving DecidableEq, Repr

/-- `VMTransactionOutput::unpack`. -/
def VMTransactionOutput.unpack (o : VMTransactionOutput) :
    ChangeSet (Op AptosWrite) × ChangeSet DeltaOp × List Nat × Nat × TransactionStatus :=
  (o.writes, o.deltas, o.events, o.gas_used, o.status)

/-- `AptosTransactionOutput`: newtype wrapper around `VMTransactionOutput`
(present in the source only to satisfy the orphan rule). -/
structure AptosTransactionOutput where
  out : VMTransactionOutput
deriving DecidableEq, Repr

/-- `AptosTransactionOutput::get_writes` (the source clones each pair; the
result is the same list of writes). -/
def AptosTransactionOutput.get_writes (o : AptosTransactionOutput) :
    List (StateKey × Op AptosWrite) := o.out.writes

/-- `AptosTransactionOutput::get_deltas`. -/
def AptosTransactionOutput.get_deltas (o : AptosTransactionOutput) :
    List (StateKey × DeltaOp) := o.out.deltas

/-- `AptosTransactionOutput::skip_output`: the canonical output assigned to
positions after a SkipRest signal: empty change sets, no events, zero gas,
status `Retry`. -/
def AptosTransactionOutput.skip_output : AptosTransactionOutput :=
  ⟨⟨ChangeSet.empty, ChangeSet.empty, [], 0, TransactionStatus.Retry⟩⟩

/-- Errors of the inner `BlockExecutor` (`aptos_block_executor::errors::Error`). -/
inductive ExecError where
  | ModulePathReadWrite
  | UserError (s : VMStatus)
deriving DecidableEq, Repr

/-- The inner executor pairs each transaction output with the materialized
delta writes produced for its position by the delta resolver. -/
abbrev ExecResults := List (AptosTransactionOutput × List (StateKey × Op AptosWrite))

/-- Final per-transaction record (`aptos_types` `TransactionOutput::new`). -/
structure TransactionOutput where
  write_set : List (StateKey × Op AptosWrite)
  events : List Nat
  gas_used : Nat
  status : TransactionStatus
deriving DecidableEq, Repr

/-- Modelled from the spec: `AptosChangeSet::extend_with_writes` lives in
`aptos_vm_types`, which is not among the sources; the spec says the driver
must "fold delta-writes back into the output's write set", so it is
modelled as appending the materialized delta writes to the write set
(`into_write_set` then returns that list unchanged). -/
def extend_with_writes (writes delta_writes : List (StateKey × Op AptosWrite)) :
    List (StateKey × Op AptosWrite) :=
  writes ++ delta_writes

/-- The body of the per-output closure in `BlockAptosVM::execute_block`:
unpack the output, assert `deltas.len() == delta_writes.len()` (`none`
models the assertion panicking), extend the writes with the delta writes
and build the final `TransactionOutput`. -/
def combine_output (p : AptosTransactionOutput × List (StateKey × Op AptosWrite)) :
    Option TransactionOutput :=
  let (writes, deltas, events, gas_used, status) := p.1.out.unpack
  if deltas.length = p.2.length then
    some ⟨extend_with_writes writes p.2, events, gas_used, status⟩
  else
    none

/-- The final record `combine_output` builds when its assertion passes. -/
def assemble (p : AptosTransactionOutput × List (StateKey × Op AptosWrite)) :
    TransactionOutput :=
  ⟨extend_with_writes p.1.out.writes p.2, p.1.out.events, p.1.out.gas_used, p.1.out.status⟩

/-- The parallel map over the inner executor results; any assertion failure
(a panic in Rust) poisons the whole result. -/
def processResults : ExecResults → Option (List TransactionOutput)
  | [] => some []
  | p :: rest =>
    match combine_output p, processResults rest with
    | some o, some os => some (o :: os)
    | _, _ => none

/-- Outcome of `BlockAptosVM::execute_block`: a normal return, a surfaced
VM error, or a panic (`unreachable!` / a failed assertion). -/
inductive BlockOutcome where
  | ok (outputs : List TransactionOutput)
  | vmError (s : VMStatus)
  | panicked
deriving DecidableEq, Repr

/-- `BlockAptosVM::execute_block`.  The signature-verification map `pp`
(`preprocess_transaction`, applied over the raw transactions in order) and
the inner `BlockExecutor::execute_block` (`inner`, a collaborator outside
the driver) are parameters.  The driver maps `combine_output` over a
successful inner result; `Err(ModulePathReadWrite)` hits `unreachable!`
(modelled as `panicked`); `Err(UserError(err))` becomes `Err(err)`. -/
def execute_block (pp : Transaction → PreprocessedTransaction)
    (inner : List PreprocessedTransaction → Except ExecError ExecResults)
    (transactions : List Transaction) : BlockOutcome :=
  let signature_verified_block := transactions.map pp
  match inner signature_verified_block with
  | .ok results =>
    match processResults results with
    | some outputs => .ok outputs
    | none => .panicked
  | .error .ModulePathReadWrite => .panicked
  | .error (.UserError err) => .vmError err

deriving instance DecidableEq for Except

/-- `BlockAptosVM::execute_block_benchmark`.  Preprocesses the raw
transactions twice with the same parallel map, runs the inner executor once
at the requested concurrency level and once at concurrency 1, prints
throughputs (the elapsed milliseconds of each run are parameters; a zero
elapsed time makes the Rust division panic, modelled as `none`), asserts
the two results are equal (`assert_eq!`, `none` on failure) and returns the
two observed throughputs. -/
def execute_block_benchmark (pp : Transaction → PreprocessedTransaction)
    (inner : Nat → List PreprocessedTransaction → Except ExecError ExecResults)
    (concurrency_level : Nat) (execMillis seqMillis : Nat)
    (transactions : List Transaction) : Option (Nat × Nat) :=
  let signature_verified_block := transactions.map pp
  let signature_verified_block_for_seq := transactions.map pp
  let block_size := signature_verified_block.length
  let ret := inner concurrency_level signature_verified_block
  if execMillis = 0 then none
  else
    let seq_ret := inner 1 signature_verified_block_for_seq
    if seqMillis = 0 then none
    else if ret = seq_ret then
      some (block_size * 1000 / execMillis, block_size * 1000 / seqMillis)
    else none

/-! ## Output delta resolver (`output_delta_resolver.rs`) -/

/-- Base value computed by `OutputDeltaResolver::resolve` for one key:
`base_view.get_state_value_bytes(&key).ok().and_then(|v| v.map(|b| deserialize(&b)))`.
Note that `.ok()` turns an I/O `Err` into `None`, exactly like an absent
value.  The byte deserializer `deser` (from `aptos_aggregator`, outside the
sources) is a parameter. -/
def baseValue (deser : List Nat → Nat)
    (get_state_value_bytes : StateKey → Except Nat (Option (List Nat)))
    (key : StateKey) : Option Nat :=
  match get_state_value_bytes key with
  | .ok (some bytes) => some (deser bytes)
  | .ok none => none
  | .error _ => none

/-- `ret[idx].push(x)`: append `x` to the `idx`-th inner list (in Rust an
out-of-range index panics; the theorems below only use in-range indices,
where `List.set` agrees with the Rust semantics). -/
def pushAt {α : Type} (ret : List (List α)) (idx : Nat) (x : α) : List (List α) :=
  ret.set idx (ret.getD idx [] ++ [x])

/-- The inner loop of `resolve` for one aggregator key: push
`(key, Op::Modification(AptosWrite::AggregatorValue(value)))` at position
`idx` for every materialized delta `(idx, value)`. -/
def pushEntries (key : StateKey) (entries : List (Nat × Nat))
    (ret : List (List (StateKey × Op AptosWrite))) :
    List (List (StateKey × Op AptosWrite)) :=
  entries.foldl
    (fun r p => pushAt r p.1 (key, Op.Modification (AptosWrite.AggregatorValue p.2))) ret

/-- `OutputDeltaResolver::resolve`.  The multi-version map accessors
`take_aggregator_keys` (the list `aggKeys` of involved aggregator keys) and
`take_materialized_deltas` (`tmd`, mapping a key and the base value to the
`(index, value)` pairs of materialized deltas) live outside the sources and
are parameters.  Starts from `vec![vec![]; block_size]` and pushes one
modification entry per materialized delta. -/
def resolve (aggKeys : List StateKey)
    (tmd : StateKey → Option Nat → List (Nat × Nat))
    (deser : List Nat → Nat)
    (get_state_value_bytes : StateKey → Except Nat (Option (List Nat)))
    (block_size : Nat) : List (List (StateKey × Op AptosWrite)) :=
  aggKeys.foldl
    (fun ret key => pushEntries key (tmd key (baseValue deser get_state_value_bytes key)) ret)
    (List.replicate block_size [])

/-- A base state view with every I/O error replaced by "absent value". -/
def errToNone (get_state_value_bytes : StateKey → Except Nat (Option (List Nat))) :
    StateKey → Except Nat (Option (List Nat)) :=
  fun key =>
    match get_state_value_bytes key with
    | .error _ => .ok none
    | r => r

/-! ## Skip-rest assignment (scheduler collaborator) -/

/-- Modelled from the spec: the scheduler's skip-rest handling lives in the
inner `aptos_block_executor` crate, which is not among the sources.  The
spec says "If an executor returns a terminal status requesting skipping,
all positions `> i` are assigned the canonical retry output without
execution".  `exec` returns, for a position, its output together with the
flag that the executor requested skipping the rest of the block; once that
flag is seen, every later position receives
`AptosTransactionOutput.skip_output` and `exec` is not consulted there. -/
def runFrom (exec : Nat → VMTransactionOutput × Bool) :
    Nat → Nat → Bool → List AptosTransactionOutput
  | 0, _, _ => []
  | fuel + 1, i, skipped =>
    if skipped then
      AptosTransactionOutput.skip_output :: runFrom exec fuel (i + 1) true
    else
      ⟨(exec i).1⟩ :: runFrom exec fuel (i + 1) (exec i).2

/-- Modelled from the spec: run a block of `n` positions from position `0`
with no skip pending (see `runFrom`). -/
def runWithSkip (exec : Nat → VMTransactionOutput × Bool) (n : Nat) :
    List AptosTransactionOutput :=
  runFrom exec n 0 false

/-! ## Indexer token-resource decoder (`v2_token_utils.rs`) -/

/-- JSON values are opaque to the claims; modelled as `Nat`. -/
abbrev Json := Nat

/-- `BigDecimal` values; modelled as `Int`. -/
abbrev BigDecimal := Int

/-- `ObjectCore`. -/
structure ObjectCore where
  allow_ungated_transfer : Bool
  guid_creation_num : BigDecimal
  owner : String
deriving DecidableEq, Repr

/-- `Collection` (name and uri are private in the source). -/
structure Collection where
  creator : String
  description : String
  name : String
  uri : String
deriving DecidableEq, Repr

/-- `AptosCollection`. -/
structure AptosCollection where
  mutable_description : Bool
  mutable_uri : Bool
deriving DecidableEq, Repr

/-- `ResourceReference`. -/
structure ResourceReference where
  inner : String
deriving DecidableEq, Repr

/-- `Token`. -/
structure Token where
  collection : ResourceReference
  description : String
  name : String
  uri : String
deriving DecidableEq, Repr

/-- `FixedSupply`. -/
structure FixedSupply where
  current_supply : BigDecimal
  max_supply : BigDecimal
  total_minted : BigDecimal
deriving DecidableEq, Repr

/-- `UnlimitedSupply`. -/
structure UnlimitedSupply where
  current_supply : BigDecimal
  total_minted : BigDecimal
deriving DecidableEq, Repr

/-- `OptionalAggregatorResource` lives in `coin_utils.rs`, which is not
among the sources; the only part `Supply` uses is
`current.integer.get_supply()`, modelled as a stored optional value. -/
structure OptionalAggregatorResource where
  integer_supply : Option BigDecimal
deriving DecidableEq, Repr

/-- `BigDecimalVectorWrapper`. -/
structure BigDecimalVectorWrapper where
  inner : BigDecimal
deriving DecidableEq, Repr

/-- `Supply`. -/
structure Supply where
  current : OptionalAggregatorResource
  maximum : List BigDecimalVectorWrapper
deriving DecidableEq, Repr

/-- `Supply::get_maximum`: the source returns `None` unconditionally (its
doc comment: extraction of the maximum is a TODO). -/
def Supply.get_maximum (_s : Supply) : Option BigDecimal :=
  none

/-- `Supply::get_supply`. -/
def Supply.get_supply (s : Supply) : Option BigDecimal :=
  s.current.integer_supply

/-- `OptionalSupply`: a Move option encoded as a vector. -/
structure OptionalSupply where
  vec : List Supply
deriving DecidableEq, Repr

/-- `OptionalSupply::get_supply`. -/
def OptionalSupply.get_supply (o : OptionalSupply) : Option BigDecimal :=
  match o.vec.head? with
  | some supply => supply.get_supply
  | none => none

/-- `OptionalSupply::get_maximum`. -/
def OptionalSupply.get_maximum (o : OptionalSupply) : Option BigDecimal :=
  match o.vec.head? with
  | some supply => supply.get_maximum
  | none => none

/-- `FungibleAssetMetadata`. -/
structure FungibleAssetMetadata where
  supply : OptionalSupply
  decimals : Int
  symbol : String
deriving DecidableEq, Repr

/-- `FungibleAssetStore`. -/
structure FungibleAssetStore where
  metadata : ResourceReference
  balance : BigDecimal
  frozen : Bool
deriving DecidableEq, Repr

/-- `V2TokenResource`. -/
inductive V2TokenResource where
  | AptosCollection (c : AptosCollection)
  | Collection (c : Collection)
  | FixedSupply (s : FixedSupply)
  | FungibleAssetMetadata (m : FungibleAssetMetadata)
  | FungibleAssetStore (s : FungibleAssetStore)
  | ObjectCore (o : ObjectCore)
  | UnlimitedSupply (s : UnlimitedSupply)
  | Token (t : Token)
deriving DecidableEq, Repr

/-- The `serde_json::from_value` decoders for each supported resource type
(`serde_json` is an external library); `none` models a parse failure. -/
structure Decoders where
  objectCore : Json → Option ObjectCore
  collection : Json → Option Collection
  fixedSupply : Json → Option FixedSupply
  unlimitedSupply : Json → Option UnlimitedSupply
  aptosCollection : Json → Option AptosCollection
  token : Json → Option Token
  fungibleAssetMetadata : Json → Option FungibleAssetMetadata
  fungibleAssetStore : Json → Option FungibleAssetStore

/-- Errors of `V2TokenResource::from_resource`: the first `.context(...)?`
wraps a serde parse failure, the second `.context(...)` turns the
unsupported-type `None` into the "Resource unsupported!" error. -/
inductive FromResourceError where
  | ParseFailed
  | Unsupported
deriving DecidableEq, Repr

/-- `V2TokenResource::is_resource_supported`. -/
def V2TokenResource.is_resource_supported (data_type : String) : Bool :=
  match data_type with
  | "0x1::object::ObjectCore"
  | "0x4::collection::Collection"
  | "0x4::collection::FixedSupply"
  | "0x4::collection::UnlimitedSupply"
  | "0x4::aptos_token::AptosCollection"
  | "0x4::token::Token"
  | "0x1::fungible_asset::Metadata"
  | "0x1::fungible_asset::FungibleStore" => true
  | _ => false

/-- `V2TokenResource::from_resource`: match on the type string, decode via
serde in the matching branch (parse failure surfaces through the first
context), fall through to `Ok(None)` otherwise, which the second context
turns into the "Resource unsupported!" error. -/
def V2TokenResource.from_resource (d : Decoders) (data_type : String)
    (data : Json) (_txn_version : Int) : Except FromResourceError V2TokenResource :=
  let step : Except FromResourceError (Option V2TokenResource) :=
    match data_type with
    | "0x1::object::ObjectCore" =>
      match d.objectCore data with
      | some inner => .ok (some (.ObjectCore inner))
      | none => .error .ParseFailed
    | "0x4::collection::Collection" =>
      match d.collection data with
      | some inner => .ok (some (.Collection inner))
      | none => .error .ParseFailed
    | "0x4::collection::FixedSupply" =>
      match d.fixedSupply data with
      | some inner => .ok (some (.FixedSupply inner))
      | none => .error .ParseFailed
    | "0x4::collection::UnlimitedSupply" =>
      match d.unlimitedSupply data with
      | some inner => .ok (some (.UnlimitedSupply inner))
      | none => .error .ParseFailed
    | "0x4::aptos_token::AptosCollection" =>
      match d.aptosCollection data with
      | some inner => .ok (some (.AptosCollection inner))
      | none => .error .ParseFailed
    | "0x4::token::Token" =>
      match d.token data with
      | some inner => .ok (some (.Token inner))
      | none => .error .ParseFailed
    | "0x1::fungible_asset::Metadata" =>
      match d.fungibleAssetMetadata data with
      | some inner => .ok (some (.FungibleAssetMetadata inner))
      | none => .error .ParseFailed
    | "0x1::fungible_asset::FungibleStore" =>
      match d.fungibleAssetStore data with
      | some inner => .ok (some (.FungibleAssetStore inner))
      | none => .error .ParseFailed
    | _ => .ok none
  match step with
  | .error e => .error e
  | .ok (some r) => .ok r
  | .ok none => .error .Unsupported

/-! ## Shared lemmas -/

/-- When every output's delta count matches its delta-write count, the
post-processing map succeeds and assembles each record. -/
theorem processResults_eq_map (results : ExecResults)
    (h : ∀ p ∈ results, p.1.out.deltas.length = p.2.length) :
    processResults results = some (results.map assemble) := by
  induction results with
  | nil => rfl
  | cons p rest ih =>
    have hp : combine_output p = some (assemble p) := by
      simp [combine_output, assemble, VMTransactionOutput.unpack,
        h p (List.mem_cons_self p rest)]
    have hrest := ih fun q hq => h q (List.mem_cons_of_mem p hq)
    simp [processResults, hp, hrest]

/-- Once the skip flag is set, `runFrom` emits only `skip_output`. -/
theorem runFrom_skipped (exec : Nat → VMTransactionOutput × Bool) :
    ∀ fuel i, runFrom exec fuel i true
      = List.replicate fuel AptosTransactionOutput.skip_output := by
  intro fuel
  induction fuel with
  | zero => intro i; rfl
  | succ f ih => intro i; simp [runFrom, ih, List.replicate_succ]

/-- Characterization of a run whose first skip request is at distance `d`
from the start: the executed heads followed by canonical retry outputs. -/
theorem runFrom_first_skip (exec : Nat → VMTransactionOutput × Bool) :
    ∀ d fuel start,
      (∀ j, j < d → (exec (start + j)).2 = false) →
      (exec (start + d)).2 = true →
      d < fuel →
      runFrom exec fuel start false =
        (List.range (d + 1)).map (fun j => ⟨(exec (start + j)).1⟩) ++
          List.replicate (fuel - (d + 1)) AptosTransactionOutput.skip_output := by
  intro d
  induction d with
  | zero =>
    intro fuel start _ hskip hlt
    obtain ⟨f, rfl⟩ : ∃ f, fuel = f + 1 := ⟨fuel - 1, by omega⟩
    have hs : (exec start).2 = true := by simpa using hskip
    simp [runFrom, hs, runFrom_skipped, List.range_succ]
  | succ d ih =>
    intro fuel start hno hskip hlt
    obtain ⟨f, rfl⟩ : ∃ f, fuel = f + 1 := ⟨fuel - 1, by omega⟩
    have h0 : (exec start).2 = false := by simpa using hno 0 (Nat.succ_pos d)
    have hrec := ih f (start + 1)
      (fun j hj => by
        have := hno (j + 1) (by omega)
        simpa [Nat.add_assoc, Nat.add_comm 1 j] using this)
      (by
        have : start + 1 + d = start + (d + 1) := by omega
        rw [this]; exact hskip)
      (by omega)
    have step : runFrom exec (f + 1) start false
        = ⟨(exec start).1⟩ :: runFrom exec f (start + 1) false := by
      simp [runFrom, h0]
    have hmap : (List.range (d + 1)).map
          ((fun j => (⟨(exec (start + j)).1⟩ : AptosTransactionOutput)) ∘ Nat.succ)
        = (List.range (d + 1)).map (fun j => ⟨(exec (start + 1 + j)).1⟩) := by
      apply List.map_congr_left
      intro j _
      have hj : start + Nat.succ j = start + 1 + j := by omega
      simp [Function.comp, hj]
    rw [step, hrec]
    conv_rhs => rw [List.range_succ_eq_map]
    rw [show f + 1 - (d + 1 + 1) = f - (d + 1) from by omega]
    simp only [List.map_cons, List.map_map, Nat.add_zero, List.cons_append]
    rw [hmap]

/-! ## Claims -/

/-- C10: for every `OptionalSupply` value, `get_maximum` returns `none`,
because `Supply::get_maximum` is constantly `none`, regardless of the
contents of the wrapped supply vector. -/
theorem optional_supply_get_maximum_none (o : OptionalSupply) :
    o.get_maximum = none := by
  unfold OptionalSupply.get_maximum
  cases o.vec.head? <;> simp [Supply.get_maximum]

/-- C1 counterexample: when the inner parallel executor returns
`ModulePathReadWrite`, `BlockAptosVM::execute_block` does not surface the
condition to its caller: it panics (`unreachable!`), shown here on a
concrete one-transaction block. -/
theorem execute_block_module_path_counterexample :
    execute_block (fun t => t)
        (fun _ => Except.error ExecError.ModulePathReadWrite) [0]
      = BlockOutcome.panicked := by
  rfl

/-- C1 (amended): for every block and state view, when the inner parallel
executor returns `ModulePathReadWrite`, `BlockAptosVM::execute_block`
panics via `unreachable!` (the sequential fallback is expected to have
happened inside the inner executor), so the condition is never surfaced to
the caller. -/
theorem execute_block_module_path_panics
    (pp : Transaction → PreprocessedTransaction)
    (inner : List PreprocessedTransaction → Except ExecError ExecResults)
    (txns : List Transaction)
    (h : inner (txns.map pp) = Except.error ExecError.ModulePathReadWrite) :
    execute_block pp inner txns = BlockOutcome.panicked := by
  simp [execute_block, h]

/-- C1 witness: the amended claim evaluated on a concrete block. -/
theorem execute_block_module_path_panics_witness :
    execute_block (fun t => t)
        (fun _ => Except.error ExecError.ModulePathReadWrite) [3]
      = BlockOutcome.panicked :=
  execute_block_module_path_panics (fun t => t)
    (fun _ => Except.error ExecError.ModulePathReadWrite) [3] rfl

/-- C7: for every block and state view, when the inner parallel executor
returns `UserError(err)`, `execute_block` returns `Err(err)`: the VM-level
failure is surfaced unmodified as the block's result. -/
theorem execute_block_user_error_surfaced
    (pp : Transaction → PreprocessedTransaction)
    (inner : List PreprocessedTransaction → Except ExecError ExecResults)
    (txns : List Transaction) (err : VMStatus)
    (h : inner (txns.map pp) = Except.error (ExecError.UserError err)) :
    execute_block pp inner txns = BlockOutcome.vmError err := by
  simp [execute_block, h]

/-- C7 witness: a concrete user error is surfaced unmodified. -/
theorem execute_block_user_error_surfaced_witness :
    execute_block (fun t => t)
        (fun _ => Except.error (ExecError.UserError 42)) [0, 1]
      = BlockOutcome.vmError 42 :=
  execute_block_user_error_surfaced (fun t => t)
    (fun _ => Except.error (ExecError.UserError 42)) [0, 1] 42 rfl

/-- C8: on the successful path of `execute_block`, when the resolver paired
every position with one materialized write per delta (equal counts), the
assertion `deltas.len() == delta_writes.len()` never fires: the driver does
not panic and every per-position record assembles. -/
theorem execute_block_assert_never_fires
    (pp : Transaction → PreprocessedTransaction)
    (inner : List PreprocessedTransaction → Except ExecError ExecResults)
    (txns : List Transaction) (results : ExecResults)
    (hok : inner (txns.map pp) = Except.ok results)
    (hlen : ∀ p ∈ results, p.1.out.deltas.length = p.2.length) :
    execute_block pp inner txns ≠ BlockOutcome.panicked ∧
      ∀ p ∈ results, combine_output p = some (assemble p) := by
  constructor
  · simp [execute_block, hok, processResults_eq_map results hlen]
  · intro p hp
    simp [combine_output, assemble, VMTransactionOutput.unpack, hlen p hp]

/-- C8 witness: a concrete result list with matching counts. -/
theorem execute_block_assert_never_fires_witness :
    execute_block (fun t => t)
        (fun _ => Except.ok
          [(⟨⟨[], [(5, ⟨1, 10⟩)], [], 3, TransactionStatus.Keep 0⟩⟩,
            [(5, Op.Modification (AptosWrite.AggregatorValue 4))])]) [9]
      ≠ BlockOutcome.panicked :=
  (execute_block_assert_never_fires (fun t => t)
    (fun _ => Except.ok
      [(⟨⟨[], [(5, ⟨1, 10⟩)], [], 3, TransactionStatus.Keep 0⟩⟩,
        [(5, Op.Modification (AptosWrite.AggregatorValue 4))])]) [9]
    [(⟨⟨[], [(5, ⟨1, 10⟩)], [], 3, TransactionStatus.Keep 0⟩⟩,
      [(5, Op.Modification (AptosWrite.AggregatorValue 4))])]
    rfl (by decide)).1

/-- C4: on a successful run, `execute_block` returns one `TransactionOutput`
per input transaction, in input order; each record's write set is the
transaction's writes extended with its materialized delta-writes, together
with its events, gas used, and status (all captured by `assemble`). -/
theorem execute_block_output_shape
    (pp : Transaction → PreprocessedTransaction)
    (inner : List PreprocessedTransaction → Except ExecError ExecResults)
    (txns : List Transaction) (results : ExecResults)
    (hok : inner (txns.map pp) = Except.ok results)
    (hN : results.length = txns.length)
    (hlen : ∀ p ∈ results, p.1.out.deltas.length = p.2.length) :
    execute_block pp inner txns = BlockOutcome.ok (results.map assemble) ∧
      (results.map assemble).length = txns.length ∧
      ∀ i (hi : i < results.length),
        (results.map assemble)[i]? =
          some ⟨extend_with_writes results[i].1.out.writes results[i].2,
                results[i].1.out.events, results[i].1.out.gas_used,
                results[i].1.out.status⟩ := by
  refine ⟨?_, ?_, ?_⟩
  · simp [execute_block, hok, processResults_eq_map results hlen]
  · simpa using hN
  · intro i hi
    simp [List.getElem?_map, List.getElem?_eq_getElem hi, assemble]

/-- C4 witness: a one-transaction block with one delta write. -/
theorem execute_block_output_shape_witness :
    execute_block (fun t => t)
        (fun _ => Except.ok
          [(⟨⟨[(0, Op.Creation (AptosWrite.Blob [1]))], [(5, ⟨1, 10⟩)], [7], 3,
              TransactionStatus.Keep 0⟩⟩,
            [(5, Op.Modification (AptosWrite.AggregatorValue 4))])]) [9]
      = BlockOutcome.ok
          [⟨[(0, Op.Creation (AptosWrite.Blob [1])),
             (5, Op.Modification (AptosWrite.AggregatorValue 4))],
            [7], 3, TransactionStatus.Keep 0⟩] :=
  (execute_block_output_shape (fun t => t)
    (fun _ => Except.ok
      [(⟨⟨[(0, Op.Creation (AptosWrite.Blob [1]))], [(5, ⟨1, 10⟩)], [7], 3,
          TransactionStatus.Keep 0⟩⟩,
        [(5, Op.Modification (AptosWrite.AggregatorValue 4))])]) [9]
    [(⟨⟨[(0, Op.Creation (AptosWrite.Blob [1]))], [(5, ⟨1, 10⟩)], [7], 3,
        TransactionStatus.Keep 0⟩⟩,
      [(5, Op.Modification (AptosWrite.AggregatorValue 4))])]
    rfl rfl (by decide)).1

/-- C2: `execute_block_benchmark` runs the inner executor on the same
preprocessed transactions at the requested concurrency and at concurrency 1;
it returns the pair of observed throughputs exactly when the two results
are equal (`assert_eq!` panics otherwise, and a zero elapsed time panics in
the throughput division). -/
theorem execute_block_benchmark_spec
    (pp : Transaction → PreprocessedTransaction)
    (inner : Nat → List PreprocessedTransaction → Except ExecError ExecResults)
    (c execMillis seqMillis : Nat) (txns : List Transaction)
    (hem : 0 < execMillis) (hsm : 0 < seqMillis) :
    (execute_block_benchmark pp inner c execMillis seqMillis txns
        = some (txns.length * 1000 / execMillis, txns.length * 1000 / seqMillis)
      ↔ inner c (txns.map pp) = inner 1 (txns.map pp)) ∧
    ∀ tp tps,
      execute_block_benchmark pp inner c execMillis seqMillis txns = some (tp, tps) →
        inner c (txns.map pp) = inner 1 (txns.map pp) ∧
        tp = txns.length * 1000 / execMillis ∧
        tps = txns.length * 1000 / seqMillis := by
  by_cases h : inner c (txns.map pp) = inner 1 (txns.map pp) <;>
    simp [execute_block_benchmark, Nat.pos_iff_ne_zero.mp hem,
      Nat.pos_iff_ne_zero.mp hsm, h]

/-- C2 witness: a three-transaction block with equal results on both paths
yields the two observed throughputs. -/
theorem execute_block_benchmark_spec_witness :
    execute_block_benchmark (fun t => t) (fun _ _ => Except.ok []) 4 2 5 [1, 2, 3]
      = some (1500, 600) :=
  ((execute_block_benchmark_spec (fun t => t) (fun _ _ => Except.ok []) 4 2 5
    [1, 2, 3] (by decide) (by decide)).1).mpr rfl

/-- C5: when the executor first requests SkipRest at position `i`, every
position after `i` is assigned `AptosTransactionOutput::skip_output` — the
canonical output with empty writes, empty deltas, empty events, zero gas
and status `Retry` — and those positions are never executed (the run does
not depend on the executor beyond position `i`). -/
theorem skip_rest_positions (exec : Nat → VMTransactionOutput × Bool) (n i : Nat)
    (hno : ∀ j, j < i → (exec j).2 = false)
    (hskip : (exec i).2 = true)
    (hin : i < n) :
    (∀ j, i < j → j < n →
        (runWithSkip exec n)[j]? = some AptosTransactionOutput.skip_output) ∧
    (∀ exec2 : Nat → VMTransactionOutput × Bool,
        (∀ j, j ≤ i → exec2 j = exec j) →
        runWithSkip exec2 n = runWithSkip exec n) ∧
    AptosTransactionOutput.skip_output.get_writes = [] ∧
    AptosTransactionOutput.skip_output.get_deltas = [] ∧
    AptosTransactionOutput.skip_output.out.events = [] ∧
    AptosTransactionOutput.skip_output.out.gas_used = 0 ∧
    AptosTransactionOutput.skip_output.out.status = TransactionStatus.Retry := by
  have hchar := runFrom_first_skip exec i n 0
    (fun j hj => by simpa using hno j hj) (by simpa using hskip) hin
  refine ⟨?_, ?_, rfl, rfl, rfl, rfl, rfl⟩
  · intro j hij hjn
    unfold runWithSkip
    rw [hchar]
    have hfront : ((List.range (i + 1)).map
        (fun j => (⟨(exec (0 + j)).1⟩ : AptosTransactionOutput))).length = i + 1 := by
      simp
    rw [List.getElem?_append_right (by omega)]
    rw [hfront]
    exact List.getElem?_replicate_of_lt (by omega)
  · intro exec2 hagree
    have hchar2 := runFrom_first_skip exec2 i n 0
      (fun j hj => by
        have := hno j hj
        simpa [hagree j (Nat.le_of_lt hj)] using this)
      (by simpa [hagree i (Nat.le_refl i)] using hskip) hin
    unfold runWithSkip
    rw [hchar, hchar2]
    congr 1
    apply List.map_congr_left
    intro j hj
    have hji : j ≤ i := by
      have := List.mem_range.mp hj
      omega
    rw [show 0 + j = j from by omega, hagree j hji]

/-- C5 witness: a concrete four-position block whose executor requests
SkipRest at position 1; positions 2 and 3 receive the canonical retry
output. -/
theorem skip_rest_positions_witness :
    (runWithSkip (fun j => (⟨[], [], [], j, TransactionStatus.Keep 0⟩, j == 1)) 4)[2]?
        = some AptosTransactionOutput.skip_output ∧
    (runWithSkip (fun j => (⟨[], [], [], j, TransactionStatus.Keep 0⟩, j == 1)) 4)[3]?
        = some AptosTransactionOutput.skip_output ∧
    AptosTransactionOutput.skip_output.out.status = TransactionStatus.Retry :=
  have h := skip_rest_positions
    (fun j => (⟨[], [], [], j, TransactionStatus.Keep 0⟩, j == 1)) 4 1
    (by decide) (by decide) (by decide)
  ⟨h.1 2 (by decide) (by decide), h.1 3 (by decide) (by decide), h.2.2.2.2.2.2⟩

/-- `pushAt` preserves the outer length. -/
theorem pushAt_length {α : Type} (ret : List (List α)) (idx : Nat) (x : α) :
    (pushAt ret idx x).length = ret.length := by
  simp [pushAt]

/-- `pushAt` never removes an element from any inner list. -/
theorem mem_pushAt {α : Type} (ret : List (List α)) (idx j : Nat) (x y : α)
    (h : y ∈ ret.getD j []) : y ∈ (pushAt ret idx x).getD j [] := by
  unfold pushAt
  by_cases hij : idx = j
  · subst hij
    by_cases hlt : idx < ret.length
    · simp only [List.getD_eq_getElem?_getD, List.getElem?_set_self hlt]
      simp only [List.getD_eq_getElem?_getD] at h
      cases hget : ret[idx]? with
      | none => simp [hget] at h
      | some l =>
        simp [hget] at h ⊢
        exact Or.inl h
    · rw [List.set_eq_of_length_le (by omega)]
      exact h
  · simp only [List.getD_eq_getElem?_getD, List.getElem?_set_ne hij]
    simp only [List.getD_eq_getElem?_getD] at h
    exact h

/-- `pushAt` at an in-range index puts the pushed element into that inner
list. -/
theorem self_mem_pushAt {α : Type} (ret : List (List α)) (idx : Nat) (x : α)
    (h : idx < ret.length) : x ∈ (pushAt ret idx x).getD idx [] := by
  unfold pushAt
  simp [List.getD_eq_getElem?_getD, List.getElem?_set_self h]

/-- `pushEntries` preserves the outer length. -/
theorem pushEntries_length (key : StateKey) (entries : List (Nat × Nat))
    (ret : List (List (StateKey × Op AptosWrite))) :
    (pushEntries key entries ret).length = ret.length := by
  induction entries generalizing ret with
  | nil => rfl
  | cons q rest ih =>
    have hstep : pushEntries key (q :: rest) ret
        = pushEntries key rest
            (pushAt ret q.1 (key, Op.Modification (AptosWrite.AggregatorValue q.2))) := rfl
    rw [hstep, ih, pushAt_length]

/-- `pushEntries` never removes an element from any inner list. -/
theorem mem_pushEntries (key : StateKey) (entries : List (Nat × Nat))
    (ret : List (List (StateKey × Op AptosWrite))) (j : Nat)
    (y : StateKey × Op AptosWrite) (h : y ∈ ret.getD j []) :
    y ∈ (pushEntries key entries ret).getD j [] := by
  induction entries generalizing ret with
  | nil => exact h
  | cons q rest ih =>
    exact ih _ (mem_pushAt ret q.1 j _ y h)

/-- Every in-range entry handed to `pushEntries` lands in the inner list at
its index, as a modification write of its aggregator value. -/
theorem pushEntries_adds (key : StateKey) (entries : List (Nat × Nat))
    (ret : List (List (StateKey × Op AptosWrite))) (p : Nat × Nat)
    (hp : p ∈ entries) (hlt : p.1 < ret.length) :
    (key, Op.Modification (AptosWrite.AggregatorValue p.2))
      ∈ (pushEntries key entries ret).getD p.1 [] := by
  induction entries generalizing ret with
  | nil => cases hp
  | cons q rest ih =>
    have hstep : pushEntries key (q :: rest) ret
        = pushEntries key rest
            (pushAt ret q.1 (key, Op.Modification (AptosWrite.AggregatorValue q.2))) := rfl
    rw [hstep]
    rcases List.mem_cons.mp hp with hq | hrest
    · subst hq
      exact mem_pushEntries key rest _ p.1 _
        (self_mem_pushAt ret p.1 _ hlt)
    · exact ih _ hrest (by rw [pushAt_length]; exact hlt)

/-- The key loop of `resolve` preserves the outer length. -/
theorem resolve_foldl_length (tmd : StateKey → Option Nat → List (Nat × Nat))
    (deser : List Nat → Nat)
    (gsv : StateKey → Except Nat (Option (List Nat))) :
    ∀ (keys : List StateKey) (ret : List (List (StateKey × Op AptosWrite))),
      (List.foldl
          (fun ret key => pushEntries key (tmd key (baseValue deser gsv key)) ret)
          ret keys).length = ret.length := by
  intro keys
  induction keys with
  | nil => intro ret; rfl
  | cons k rest ih =>
    intro ret
    rw [List.foldl_cons, ih, pushEntries_length]

/-- The key loop of `resolve` never removes an element from an inner list. -/
theorem mem_resolve_foldl (tmd : StateKey → Option Nat → List (Nat × Nat))
    (deser : List Nat → Nat)
    (gsv : StateKey → Except Nat (Option (List Nat))) :
    ∀ (keys : List StateKey) (ret : List (List (StateKey × Op AptosWrite)))
      (j : Nat) (y : StateKey × Op AptosWrite), y ∈ ret.getD j [] →
      y ∈ (List.foldl
          (fun ret key => pushEntries key (tmd key (baseValue deser gsv key)) ret)
          ret keys).getD j [] := by
  intro keys
  induction keys with
  | nil => intro ret j y h; exact h
  | cons k rest ih =>
    intro ret j y h
    rw [List.foldl_cons]
    exact ih _ j y (mem_pushEntries k _ ret j y h)

/-- Every in-range materialized delta of every involved key lands in the
inner list at its position. -/
theorem resolve_foldl_adds (tmd : StateKey → Option Nat → List (Nat × Nat))
    (deser : List Nat → Nat)
    (gsv : StateKey → Except Nat (Option (List Nat))) :
    ∀ (keys : List StateKey) (ret : List (List (StateKey × Op AptosWrite)))
      (k : StateKey) (p : Nat × Nat), k ∈ keys →
      p ∈ tmd k (baseValue deser gsv k) → p.1 < ret.length →
      (k, Op.Modification (AptosWrite.AggregatorValue p.2))
        ∈ (List.foldl
            (fun ret key => pushEntries key (tmd key (baseValue deser gsv key)) ret)
            ret keys).getD p.1 [] := by
  intro keys
  induction keys with
  | nil => intro ret k p hk; cases hk
  | cons k0 rest ih =>
    intro ret k p hk hp hlt
    rw [List.foldl_cons]
    rcases List.mem_cons.mp hk with hk0 | hkrest
    · subst hk0
      exact mem_resolve_foldl tmd deser gsv rest _ p.1 _
        (pushEntries_adds k _ ret p hp hlt)
    · exact ih _ k p hkrest hp (by rw [pushEntries_length]; exact hlt)

/-- C6: `OutputDeltaResolver::resolve` returns exactly one list per
transaction position (a vector of length `block_size`), and for every
involved aggregator key `K` and every materialized delta `(i, v_i)` of `K`,
the entry `(K, Op::Modification(AptosWrite::AggregatorValue(v_i)))` is in
the list at index `i`. -/
theorem resolve_shape (aggKeys : List StateKey)
    (tmd : StateKey → Option Nat → List (Nat × Nat))
    (deser : List Nat → Nat)
    (gsv : StateKey → Except Nat (Option (List Nat)))
    (block_size : Nat)
    (hidx : ∀ k ∈ aggKeys, ∀ p ∈ tmd k (baseValue deser gsv k), p.1 < block_size) :
    (resolve aggKeys tmd deser gsv block_size).length = block_size ∧
    ∀ k ∈ aggKeys, ∀ p ∈ tmd k (baseValue deser gsv k),
      (k, Op.Modification (AptosWrite.AggregatorValue p.2))
        ∈ (resolve aggKeys tmd deser gsv block_size).getD p.1 [] := by
  constructor
  · unfold resolve
    rw [resolve_foldl_length, List.length_replicate]
  · intro k hk p hp
    unfold resolve
    exact resolve_foldl_adds tmd deser gsv aggKeys _ k p hk hp
      (by rw [List.length_replicate]; exact hidx k hk p hp)

/-- C6 witness: two aggregator keys over a two-transaction block. -/
theorem resolve_shape_witness :
    (resolve [0, 1] (fun k b => [(0, k), (1, b.getD 9)]) (fun _ => 5)
        (fun k => if k = 0 then Except.ok (some [1]) else Except.ok none) 2).length = 2 ∧
    (1, Op.Modification (AptosWrite.AggregatorValue 9))
      ∈ (resolve [0, 1] (fun k b => [(0, k), (1, b.getD 9)]) (fun _ => 5)
          (fun k => if k = 0 then Except.ok (some [1]) else Except.ok none) 2).getD 1 [] :=
  have h := resolve_shape [0, 1] (fun k b => [(0, k), (1, b.getD 9)]) (fun _ => 5)
    (fun k => if k = 0 then Except.ok (some [1]) else Except.ok none) 2 (by decide)
  ⟨h.1, h.2 1 (by decide) (1, 9) (by decide)⟩

/-- `.ok()` makes an I/O error and an absent value indistinguishable in the
base value computation. -/
theorem baseValue_errToNone (deser : List Nat → Nat)
    (gsv : StateKey → Except Nat (Option (List Nat))) (key : StateKey) :
    baseValue deser (errToNone gsv) key = baseValue deser gsv key := by
  unfold baseValue errToNone
  cases h : gsv key with
  | ok v => cases v <;> simp [h]
  | error e => simp [h]

/-- C3 counterexample: a base state view whose read of the aggregator key
fails with an I/O error produces exactly the same resolver output as a view
on which the key is absent — a normal modification write, with no
transaction failed and no `Discard` status anywhere (the resolver does not
touch statuses at all). -/
theorem resolve_io_error_counterexample :
    resolve [0] (fun _ b => match b with | none => [(0, 7)] | some v => [(0, v)])
        (fun _ => 99) (fun _ => Except.error 1) 1
      = resolve [0] (fun _ b => match b with | none => [(0, 7)] | some v => [(0, v)])
        (fun _ => 99) (fun _ => Except.ok none) 1 ∧
    resolve [0] (fun _ b => match b with | none => [(0, 7)] | some v => [(0, v)])
        (fun _ => 99) (fun _ => Except.error 1) 1
      = [[(0, Op.Modification (AptosWrite.AggregatorValue 7))]] := by
  constructor <;> rfl

/-- C3 (amended): during delta resolution, an I/O error reading the base
value of an aggregator key is silently treated as an absent value — the
`.ok()` call maps `Err` to `None` — so replacing every erroring read by
"absent" leaves the resolver output unchanged, and no transaction status is
rewritten. -/
theorem resolve_io_error_as_absent (aggKeys : List StateKey)
    (tmd : StateKey → Option Nat → List (Nat × Nat))
    (deser : List Nat → Nat)
    (gsv : StateKey → Except Nat (Option (List Nat)))
    (block_size : Nat) :
    resolve aggKeys tmd deser (errToNone gsv) block_size
      = resolve aggKeys tmd deser gsv block_size := by
  unfold resolve
  congr 1
  funext ret key
  rw [baseValue_errToNone]

/-- C9: `V2TokenResource::is_resource_supported(t)` returns true exactly
when `V2TokenResource::from_resource(t, data, v)` matches a decoding
branch; in particular, when `is_resource_supported(t)` holds,
`from_resource` never returns the "Resource unsupported!" error (it either
decodes or fails with a parse error), and when it does not hold,
`from_resource` always returns that error. -/
theorem is_resource_supported_iff_decoding (d : Decoders) (t : String)
    (data : Json) (v : Int) :
    (V2TokenResource.is_resource_supported t = true →
      V2TokenResource.from_resource d t data v
        ≠ Except.error FromResourceError.Unsupported) ∧
    (V2TokenResource.is_resource_supported t = false →
      V2TokenResource.from_resource d t data v
        = Except.error FromResourceError.Unsupported) := by
  unfold V2TokenResource.is_resource_supported V2TokenResource.from_resource
  split <;> refine ⟨fun h1 => ?_, fun h2 => ?_⟩ <;>
    first
      | (simp at h1; done)
      | (simp at h2; done)
      | rfl
      | (dsimp only; split <;>
          (rename_i heq; split at heq <;>
            (first
              | (simp_all; done)
              | (injection heq with h; subst h; decide))))

/-- C9 witness: a supported type never yields the unsupported error, an
unsupported type always does, on a concrete decoder set. -/
theorem is_resource_supported_iff_decoding_witness :
    V2TokenResource.from_resource
        ⟨fun _ => none, fun _ => none, fun _ => none, fun _ => none,
         fun _ => none, fun _ => none, fun _ => none, fun _ => none⟩
        "0x4::token::Token" 0 0
      ≠ Except.error FromResourceError.Unsupported ∧
    V2TokenResource.from_resource
        ⟨fun _ => none, fun _ => none, fun _ => none, fun _ => none,
         fun _ => none, fun _ => none, fun _ => none, fun _ => none⟩
        "0x4::token::TokenStore" 0 0
      = Except.error FromResourceError.Unsupported :=
  ⟨(is_resource_supported_iff_decoding
      ⟨fun _ => none, fun _ => none, fun _ => none, fun _ => none,
       fun _ => none, fun _ => none, fun _ => none, fun _ => none⟩
      "0x4::token::Token" 0 0).1 (by decide),
   (is_resource_supported_iff_decoding
      ⟨fun _ => none, fun _ => none, fun _ => none, fun _ => none,
       fun _ => none, fun _ => none, fun _ => none, fun _ => none⟩
      "0x4::token::TokenStore" 0 0).2 (by decide)⟩

end Spec2Proof
